import Mathlib

/-
Shallow embedding of the transaction-building wallet in
src/siacore/wallet/wallet.go (package wallet).

Go maps are modelled as lists: a `List OutputID` models a
`map[...]struct{}` (a set whose list order stands for Go's unspecified
map iteration order), and association lists model key/value maps.
consensus.Currency is a uint64; values are modelled as unbounded
naturals since no claim here concerns arithmetic wraparound.

wallet.go references an `outputs` record store, a `spendConditions`
field and an ownership test (the undeclared variable `ca`) whose
declarations are absent from src; those parts are modelled from the
spec, as marked on the individual definitions below.
-/

namespace SiaWallet

abbrev CoinAddress := Nat

abbrev OutputID := Nat

abbrev Currency := Nat

/-- consensus.SpendConditions, reduced to the data the wallet observes:
its derived coin address. -/
structure SpendConditions where
  address : CoinAddress
deriving DecidableEq

/-- consensus.SpendConditions.CoinAddress(): the address derived from the
spend conditions (a fixed function of the conditions). -/
def SpendConditions.coinAddress (sc : SpendConditions) : CoinAddress :=
  sc.address

/-- consensus.Output: a value and the address it is paid to (SpendHash). -/
structure Output where
  value : Currency
  spendHash : CoinAddress
deriving DecidableEq

/-- consensus.Input: the id of the output being spent and the spend
conditions that authorize it. -/
structure Input where
  outputID : OutputID
  spendConditions : SpendConditions
deriving DecidableEq

/-- consensus.Transaction, reduced to the fields wallet.go touches.
`ident` stands for the transaction's identity used by output-id
derivation. -/
structure Transaction where
  ident : Nat
  inputs : List Input
  outputs : List Output
  minerFees : List Currency
deriving DecidableEq

/-- Modelled from the spec: the externally defined output-identifier
derivation "transaction identity + output index"
(consensus.Transaction.OutputID, not under src); Nat.pair makes it
injective and stable. -/
def Transaction.outputID (t : Transaction) (j : Nat) : OutputID :=
  Nat.pair t.ident j

/-- consensus.Block, reduced to its ordered transaction list. -/
structure Block where
  transactions : List Transaction
deriving DecidableEq

/-- openTransaction: the per-session record (wallet.go lines 15-18). -/
structure OpenTransaction where
  transaction : Transaction
  inputs : List Nat
deriving DecidableEq

/-- The Wallet state (wallet.go lines 37-47). `outputs` is the record
store `w.outputs` used at lines 77, 98, 117 and 183 whose declaration
is missing from src: modelled from the spec as the mapping from output
identifier to output value. `spendConditions` is the undeclared field
used at lines 188 and 217, modelled as a fixed wallet-level
SpendConditions value (Go zero value in a new wallet). -/
structure Wallet where
  balance : Currency
  ownedOutputs : List OutputID
  spentOutputs : List OutputID
  outputs : List (OutputID × Currency)
  spendConditions : SpendConditions
  transactionCounter : Nat
  transactions : List (String × OpenTransaction)
deriving DecidableEq

/-- New() (wallet.go lines 50-57): all maps empty, counters zero. -/
def newWallet : Wallet :=
  { balance := 0
    ownedOutputs := []
    spentOutputs := []
    outputs := []
    spendConditions := { address := 0 }
    transactionCounter := 0
    transactions := [] }

/-- Go map insert on a set-valued map (`m[id] = struct\x7b\x7d{}`-style
inserts are keyed, so inserting a present id is a no-op). -/
def insertId (l : List OutputID) (id : OutputID) : List OutputID :=
  if id ∈ l then l else l ++ [id]

/-- Go `delete(m, id)` on a set-valued map. -/
def deleteId (l : List OutputID) (id : OutputID) : List OutputID :=
  l.filter (fun x => decide (x ≠ id))

/-- Lookup in the output record store. -/
def storeLookup : List (OutputID × Currency) → OutputID → Option Currency
  | [], _ => none
  | (k, v) :: rest, id => if k = id then some v else storeLookup rest id

/-- Keyed insert/overwrite in the output record store. -/
def storeInsert : List (OutputID × Currency) → OutputID → Currency → List (OutputID × Currency)
  | [], id, v => [(id, v)]
  | (k, u) :: rest, id, v =>
    if k = id then (id, v) :: rest else (k, u) :: storeInsert rest id v

/-- Lookup in the open-transaction table (`w.transactions[id]`). -/
def tableLookup : List (String × OpenTransaction) → String → Option OpenTransaction
  | [], _ => none
  | (k, v) :: rest, id => if k = id then some v else tableLookup rest id

/-- Keyed insert/overwrite in the open-transaction table. -/
def tableUpdate : List (String × OpenTransaction) → String → OpenTransaction → List (String × OpenTransaction)
  | [], id, ot => [(id, ot)]
  | (k, v) :: rest, id, ot =>
    if k = id then (id, ot) :: rest else (k, v) :: tableUpdate rest id ot

/-- The value recorded for an output id (0 if no record). -/
def valueOf (w : Wallet) (id : OutputID) : Currency :=
  (storeLookup w.outputs id).getD 0

/-- Sum of the recorded values of the outputs in the owned-outputs
mapping. -/
def sumOwned (w : Wallet) : Currency :=
  (w.ownedOutputs.map (valueOf w)).sum

/-- The output ids created by a transaction: OutputID(j) for each index
j of its output list (wallet.go lines 69-71). -/
def createdIds (t : Transaction) : List OutputID :=
  (List.range t.outputs.length).map t.outputID

/-- One rewound transaction (wallet.go lines 68-80): first delete every
output the transaction created from the owned set, then, for each input
whose spend-conditions address is owned, re-add the input's output and
its recorded value. `own` is the ownership test written as the
undeclared `ca ==` comparison in src, modelled from the spec as an
address predicate; per the spec a missing output record is tolerated as
a no-op. -/
def rewindTransaction (own : CoinAddress → Bool) (w : Wallet) (t : Transaction) : Wallet :=
  let w1 := { w with ownedOutputs := (createdIds t).foldl deleteId w.ownedOutputs }
  t.inputs.foldl
    (fun wa inp =>
      if own inp.spendConditions.coinAddress then
        match storeLookup wa.outputs inp.outputID with
        | some v =>
          { wa with
            balance := wa.balance + v
            ownedOutputs := insertId wa.ownedOutputs inp.outputID }
        | none => wa
      else wa)
    w1

/-- One rewound block (wallet.go line 67): its transactions are
processed in reverse order. -/
def rewindBlock (own : CoinAddress → Bool) (w : Wallet) (b : Block) : Wallet :=
  b.transactions.reverse.foldl (rewindTransaction own) w

/-- One applied transaction (wallet.go lines 87-102): delete every
consumed output id from the owned set (balance untouched), then insert
every created output whose destination address is owned, recording its
value and increasing the balance. -/
def applyTransaction (own : CoinAddress → Bool) (w : Wallet) (t : Transaction) : Wallet :=
  let w1 :=
    { w with
      ownedOutputs := t.inputs.foldl (fun l inp => deleteId l inp.outputID) w.ownedOutputs }
  t.outputs.enum.foldl
    (fun wa ji =>
      if own ji.2.spendHash then
        { wa with
          ownedOutputs := insertId wa.ownedOutputs (t.outputID ji.1)
          outputs := storeInsert wa.outputs (t.outputID ji.1) ji.2.value
          balance := wa.balance + ji.2.value }
      else wa)
    w1

/-- One applied block (wallet.go line 87): transactions in forward
order. -/
def applyBlock (own : CoinAddress → Bool) (w : Wallet) (b : Block) : Wallet :=
  b.transactions.foldl (applyTransaction own) w

/-- Update (wallet.go lines 60-106): the rewound blocks are folded in
the order given, then the applied blocks in the order given. Returns the
new wallet; the Go function always returns a nil error. -/
def update (own : CoinAddress → Bool) (w : Wallet) (rewound applied : List Block) : Wallet :=
  applied.foldl (applyBlock own) (rewound.foldl (rewindBlock own) w)

/-- The body of Reset's loop (wallet.go lines 113-120): for a spent
output id that is currently owned, add its recorded value back to the
balance. -/
def resetStep (wa : Wallet) (id : OutputID) : Wallet :=
  if id ∈ wa.ownedOutputs then
    { wa with balance := wa.balance + valueOf wa id }
  else wa

/-- Reset (wallet.go lines 109-122): walk the spent-outputs set, adding
back the value of each spent output that is still owned, and delete
every spent entry. -/
def reset (w : Wallet) : Wallet :=
  let w1 := w.spentOutputs.foldl resetStep w
  { w1 with spentOutputs := [] }

/-- Balance (wallet.go lines 125-129). -/
def balanceOf (w : Wallet) : Currency :=
  w.balance

/-- The coin-selection loop of FundTransaction (wallet.go lines
173-197): walk the owned-outputs set in storage order, skip ids already
in the spent set, build an input carrying the wallet's spend conditions
for each taken output, accumulate its recorded value, and stop as soon
as the running total reaches the requested amount. A missing output
record is skipped (spec tolerance for the record store whose
declaration is missing from src). -/
def selectGo (w : Wallet) (amount : Currency) : List OutputID → Currency → List Input → Currency × List Input
  | [], total, acc => (total, acc.reverse)
  | id :: rest, total, acc =>
    if id ∈ w.spentOutputs then selectGo w amount rest total acc
    else
      match storeLookup w.outputs id with
      | none => selectGo w amount rest total acc
      | some v =>
        let acc1 := { outputID := id, spendConditions := w.spendConditions } :: acc
        let total1 := total + v
        if amount ≤ total1 then (total1, acc1.reverse)
        else selectGo w amount rest total1 acc1

/-- Coin selection over the wallet's owned-output storage. -/
def selectInputs (w : Wallet) (amount : Currency) : Currency × List Input :=
  selectGo w amount w.ownedOutputs 0 []

/-- FundTransaction (wallet.go lines 163-223). Returns the Go error (if
any) and the wallet after the call. On success the selected inputs are
appended to the session's transaction, each selected id is added to the
spent set, the session records the post-append input count once per new
input, and when the total strictly exceeds the amount one refund output
for the difference is appended, paid to the address of the wallet's
spend conditions. -/
def fundTransaction (w : Wallet) (id : String) (amount : Currency) : Option String × Wallet :=
  if amount = 0 then (some "cannot fund 0 coins", w)
  else
    match tableLookup w.transactions id with
    | none => (some "no transaction of given id found", w)
    | some ot =>
      let sel := selectInputs w amount
      if sel.1 < amount then (some "insufficient funds", w)
      else
        let t1 : Transaction := { ot.transaction with inputs := ot.transaction.inputs ++ sel.2 }
        let otInputs := ot.inputs ++ sel.2.map (fun _ => t1.inputs.length)
        let spent1 := sel.2.foldl (fun s inp => insertId s inp.outputID) w.spentOutputs
        let t2 : Transaction :=
          if amount < sel.1 then
            { t1 with
              outputs := t1.outputs ++
                [{ value := sel.1 - amount, spendHash := w.spendConditions.coinAddress }] }
          else t1
        (none,
          { w with
            spentOutputs := spent1
            transactions := tableUpdate w.transactions id { transaction := t2, inputs := otInputs } })

/-- The outputs of the transaction held by a session ([] if the session
does not exist). -/
def sessionOutputs (w : Wallet) (id : String) : List Output :=
  match tableLookup w.transactions id with
  | some ot => ot.transaction.outputs
  | none => []

/-- RegisterTransaction (wallet.go lines 152-160): the id is the decimal
string of the counter, the counter is incremented, and the code then
assigns through `w.transactions[id].transaction`. When no entry exists
under that id the Go map lookup yields a nil pointer and the assignment
panics; the panic is modelled as an error value. -/
def registerTransaction (w : Wallet) (t : Transaction) : Except String (String × Wallet) :=
  let id := toString w.transactionCounter
  let w1 := { w with transactionCounter := w.transactionCounter + 1 }
  match tableLookup w1.transactions id with
  | none => Except.error "runtime error: nil map entry dereference"
  | some ot =>
    Except.ok
      (id, { w1 with transactions := tableUpdate w1.transactions id { ot with transaction := t } })

/-- AddMinerFee (wallet.go lines 226-234). -/
def addMinerFee (w : Wallet) (id : String) (fee : Currency) : Option String × Wallet :=
  match tableLookup w.transactions id with
  | none => (some "no transaction found for given id", w)
  | some ot =>
    (none,
      { w with
        transactions := tableUpdate w.transactions id
          { ot with transaction := { ot.transaction with minerFees := ot.transaction.minerFees ++ [fee] } } })

/-- AddOutput (wallet.go lines 237-245). -/
def addOutput (w : Wallet) (id : String) (amount : Currency) (dest : CoinAddress) : Option String × Wallet :=
  match tableLookup w.transactions id with
  | none => (some "no transaction found for given id", w)
  | some ot =>
    (none,
      { w with
        transactions := tableUpdate w.transactions id
          { ot with transaction := { ot.transaction with outputs := ot.transaction.outputs ++ [{ value := amount, spendHash := dest }] } } })

/- ### Concrete fixtures used by the evaluation theorems -/

/-- An ownership test that owns exactly address 2. -/
def ownP : CoinAddress → Bool := fun a => a == 2

/-- A block whose one transaction creates a single output of value 5
paid to the owned address 2. -/
def blkCreate : Block :=
  ⟨[{ ident := 1, inputs := [], outputs := [{ value := 5, spendHash := 2 }], minerFees := [] }]⟩

/-- A block whose one transaction consumes the output created by
blkCreate. -/
def blkSpend : Block :=
  ⟨[{ ident := 2
      inputs := [{ outputID := Nat.pair 1 0, spendConditions := { address := 9 } }]
      outputs := []
      minerFees := [] }]⟩

/-- Claim C1: for every reachable wallet state, Balance() equals the sum
of the values of the outputs in the owned-outputs mapping. The code
violates this: starting from New, applying a block that creates an owned
output of value 5 and then a block that consumes it reaches a state
whose balance is still 5 while the owned-outputs mapping is empty
(Update deletes the consumed output but never decrements the balance). -/
theorem balance_sum_mismatch :
    balanceOf (update ownP (update ownP newWallet [] [blkCreate]) [] [blkSpend]) = 5 ∧
    sumOwned (update ownP (update ownP newWallet [] [blkCreate]) [] [blkSpend]) = 0 := by
  decide

/-- Claim C2: applying (rewound=[], applied=[B]) and then
(rewound=[B], applied=[]) restores the owned-output set and the balance.
The code violates this: for the block creating an owned output of value
5, the owned-output set returns to empty but the balance stays at 5
(rewinding a block deletes the outputs it created without subtracting
their value), while the pre-B balance was 0. -/
theorem roundtrip_balance_not_restored :
    (update ownP (update ownP newWallet [] [blkCreate]) [blkCreate] []).ownedOutputs =
      newWallet.ownedOutputs ∧
    (update ownP (update ownP newWallet [] [blkCreate]) [blkCreate] []).balance = 5 ∧
    newWallet.balance = 0 := by
  decide

/-- An empty transaction shell held by a session. -/
def sessionShell : OpenTransaction :=
  ⟨{ ident := 0, inputs := [], outputs := [], minerFees := [] }, []⟩

/-- A wallet owning outputs 10 and 20 (5 coins each) with one open
session, storage order [10, 20]. -/
def w9a : Wallet :=
  { balance := 10
    ownedOutputs := [10, 20]
    spentOutputs := []
    outputs := [(10, 5), (20, 5)]
    spendConditions := { address := 1 }
    transactionCounter := 1
    transactions := [("0", sessionShell)] }

/-- The same wallet state with the owned-output storage in the other
order. -/
def w9b : Wallet := { w9a with ownedOutputs := [20, 10] }

/-- Claim C9: coin selection enumerates owned outputs in a fixed order
(ascending by id), so equal wallet states select the same inputs
independent of storage iteration order. The code violates this: it
ranges over a Go map, so the enumeration follows incidental storage
order; two wallets equal as states (same owned-output set, same spent
set, record store, balance and sessions) select different inputs. -/
theorem selection_depends_on_storage_order :
    w9a.ownedOutputs.Perm w9b.ownedOutputs ∧
    w9a.spentOutputs = w9b.spentOutputs ∧
    w9a.outputs = w9b.outputs ∧
    w9a.balance = w9b.balance ∧
    w9a.transactions = w9b.transactions ∧
    (selectInputs w9a 5).2.map Input.outputID = [10] ∧
    (selectInputs w9b 5).2.map Input.outputID = [20] := by
  decide

/-- Claim C10: every RegisterTransaction call succeeds with a fresh id
and stores the session's shell. The code violates this: it assigns
through `w.transactions[id].transaction` without ever allocating an
entry for the fresh id, so the very first call on a new wallet
dereferences a nil map entry and panics. -/
theorem register_first_call_panics :
    registerTransaction newWallet { ident := 0, inputs := [], outputs := [], minerFees := [] } =
      Except.error "runtime error: nil map entry dereference" := by
  rfl

/-- An ownership test that owns exactly address 3. -/
def ownC : CoinAddress → Bool := fun a => a == 3

/-- A wallet that records a value of 4 for output id (Nat.pair 7 0)
without currently owning it. -/
def wC : Wallet :=
  { balance := 0
    ownedOutputs := []
    spentOutputs := []
    outputs := [(Nat.pair 7 0, 4)]
    spendConditions := { address := 0 }
    transactionCounter := 0
    transactions := [] }

/-- A block whose transaction consumes output (Nat.pair 7 0) from owned
address 3. -/
def blkSpendX : Block :=
  ⟨[{ ident := 5
      inputs := [{ outputID := Nat.pair 7 0, spendConditions := { address := 3 } }]
      outputs := []
      minerFees := [] }]⟩

/-- A block whose transaction creates the output with id
(Nat.pair 7 0). -/
def blkCreateX : Block :=
  ⟨[{ ident := 7, inputs := [], outputs := [{ value := 4, spendHash := 9 }], minerFees := [] }]⟩

/-- Follows the claim's words, for comparison with the code: process the
rewound block list in reverse of the order given (within each block the
transactions are still processed in reverse). -/
def updateRewoundClaim (own : CoinAddress → Bool) (w : Wallet) (rewound : List Block) : Wallet :=
  rewound.reverse.foldl (rewindBlock own) w

/-- Claim C5, counterexample: the code processes the rewound block list
in the order given, not in reverse. On the list [blkSpendX, blkCreateX]
the code first re-adds the spent output and then deletes it (because
blkCreateX created it), ending with an empty owned set; reverse-order
processing ends with the output owned. -/
theorem rewound_blocks_not_reversed :
    update ownC wC [blkSpendX, blkCreateX] [] ≠
      updateRewoundClaim ownC wC [blkSpendX, blkCreateX] := by
  decide

/-- Claim C5 (amended): during the ledger update the rewound block list
is processed in the order given (so a split of the list composes
sequentially left-to-right), and within each rewound block the
transactions are processed in reverse order (the last transaction of a
block is processed first). -/
theorem rewound_order (own : CoinAddress → Bool) (w : Wallet) (r1 r2 : List Block)
    (ts : List Transaction) (t : Transaction) :
    update own w (r1 ++ r2) [] = update own (update own w r1 []) r2 [] ∧
    rewindBlock own w ⟨ts ++ [t]⟩ = rewindBlock own (rewindTransaction own w t) ⟨ts⟩ := by
  constructor
  · simp [update, List.foldl_append]
  · simp [rewindBlock, List.reverse_append]

/-- Changing only the balance leaves the recorded output values
unchanged. -/
lemma valueOf_set_balance (w : Wallet) (b : Currency) :
    valueOf { w with balance := b } = valueOf w :=
  rfl

/-- Reset's loop only accumulates balance: folding resetStep over a list
of ids adds the recorded value of every listed id that is owned, and
changes nothing else. -/
lemma foldl_resetStep (l : List OutputID) : ∀ w : Wallet,
    l.foldl resetStep w =
      { w with
        balance := w.balance +
          ((l.filter (fun x => decide (x ∈ w.ownedOutputs))).map (valueOf w)).sum } := by
  induction l with
  | nil => intro w; simp
  | cons a l ih =>
    intro w
    rw [List.foldl_cons]
    by_cases ha : a ∈ w.ownedOutputs
    · rw [show resetStep w a = { w with balance := w.balance + valueOf w a } by
        simp [resetStep, ha]]
      rw [ih]
      simp [List.filter_cons, ha, Nat.add_assoc, valueOf_set_balance]
    · rw [show resetStep w a = w by simp [resetStep, ha]]
      rw [ih]
      simp [List.filter_cons, ha]

/-- A wallet owning output 4 (value 5) that is also reserved (spent). -/
def w7 : Wallet :=
  { balance := 5
    ownedOutputs := [4]
    spentOutputs := [4]
    outputs := [(4, 5)]
    spendConditions := { address := 0 }
    transactionCounter := 0
    transactions := [] }

/-- Claim C7, counterexample: Reset does change the balance. On a wallet
whose reserved output 4 (value 5) is still owned, Reset adds the value
back, raising the balance from 5 to 10. -/
theorem reset_changes_balance :
    (reset w7).balance ≠ w7.balance ∧ (reset w7).balance = 10 := by
  decide

/-- Claim C7 (amended): Reset never changes the owned-output mapping and
clears every reservation, and it increases the balance by exactly the
sum of the recorded values of the outputs that are both reserved and
owned — so the balance is unchanged precisely when no reserved output is
currently owned. -/
theorem reset_effect (w : Wallet) :
    (reset w).ownedOutputs = w.ownedOutputs ∧
    (reset w).spentOutputs = [] ∧
    (reset w).balance = w.balance +
      ((w.spentOutputs.filter (fun x => decide (x ∈ w.ownedOutputs))).map (valueOf w)).sum := by
  refine ⟨?_, rfl, ?_⟩ <;> simp [reset, foldl_resetStep]

/-- Claim C6: when FundTransaction fails for any reason (zero amount,
unknown session, or insufficient unreserved funds), the wallet state is
left completely unchanged: no reservation, no transaction edit, balance
and owned-output mapping as before. -/
theorem fund_failure_frame (w : Wallet) (id : String) (amt : Currency)
    (h : (fundTransaction w id amt).1 ≠ none) :
    (fundTransaction w id amt).2 = w := by
  by_cases h0 : amt = 0
  · simp [fundTransaction, h0]
  · rcases hot : tableLookup w.transactions id with _ | ot
    · simp [fundTransaction, h0, hot]
    · by_cases hlt : (selectInputs w amt).1 < amt
      · simp [fundTransaction, h0, hot, hlt]
      · exfalso
        apply h
        simp [fundTransaction, h0, hot, hlt]

/-- Witness for fund_failure_frame: funding an unknown session on a new
wallet fails and changes nothing. -/
theorem fund_failure_frame_witness :
    (fundTransaction newWallet "0" 5).2 = newWallet :=
  fund_failure_frame newWallet "0" 5 (by decide)

/-- The inserted id is in the set after insertId. -/
lemma mem_insertId_self (l : List OutputID) (id : OutputID) : id ∈ insertId l id := by
  by_cases h : id ∈ l <;> simp [insertId, h]

/-- insertId keeps every existing member. -/
lemma mem_insertId_of_mem (l : List OutputID) (id x : OutputID) (hx : x ∈ l) :
    x ∈ insertId l id := by
  by_cases h : id ∈ l <;> simp [insertId, h, hx]

/-- Folding reservation inserts keeps every existing member of the spent
set. -/
lemma mem_foldl_insert_of_mem (l : List Input) : ∀ (s : List OutputID) (x : OutputID),
    x ∈ s → x ∈ l.foldl (fun s inp => insertId s inp.outputID) s := by
  induction l with
  | nil => intro s x hx; simpa using hx
  | cons a l ih =>
    intro s x hx
    exact ih (insertId s a.outputID) x (mem_insertId_of_mem s a.outputID x hx)

/-- Folding reservation inserts puts every listed input's id into the
spent set. -/
lemma mem_foldl_insert_self (l : List Input) : ∀ (s : List OutputID) (inp : Input),
    inp ∈ l → inp.outputID ∈ l.foldl (fun s inp => insertId s inp.outputID) s := by
  induction l with
  | nil => intro s inp h; simp at h
  | cons a l ih =>
    intro s inp h
    rcases List.mem_cons.mp h with rfl | h
    · exact mem_foldl_insert_of_mem l (insertId s inp.outputID) inp.outputID
        (mem_insertId_self s inp.outputID)
    · exact ih (insertId s a.outputID) inp h

/-- Every input produced by the selection loop is either carried over
from the accumulator or spends an output that is not reserved. -/
lemma selectGo_mem (w : Wallet) (amount : Currency) : ∀ (l : List OutputID) (total : Currency)
    (acc : List Input) (inp : Input), inp ∈ (selectGo w amount l total acc).2 →
    inp ∈ acc ∨ inp.outputID ∉ w.spentOutputs := by
  intro l
  induction l with
  | nil =>
    intro total acc inp h
    simp [selectGo] at h
    exact Or.inl h
  | cons id rest ih =>
    intro total acc inp h
    by_cases hs : id ∈ w.spentOutputs
    · rw [show selectGo w amount (id :: rest) total acc = selectGo w amount rest total acc by
        simp [selectGo, hs]] at h
      exact ih total acc inp h
    · rcases hl : storeLookup w.outputs id with _ | v
      · rw [show selectGo w amount (id :: rest) total acc = selectGo w amount rest total acc by
          simp [selectGo, hs, hl]] at h
        exact ih total acc inp h
      · by_cases hstop : amount ≤ total + v
        · rw [show selectGo w amount (id :: rest) total acc =
              (total + v, ({ outputID := id, spendConditions := w.spendConditions } :: acc).reverse) by
            simp [selectGo, hs, hl, hstop]] at h
          simp at h
          rcases h with h | h
          · exact Or.inl h
          · subst h; exact Or.inr hs
        · rw [show selectGo w amount (id :: rest) total acc =
              selectGo w amount rest (total + v)
                ({ outputID := id, spendConditions := w.spendConditions } :: acc) by
            simp [selectGo, hs, hl, hstop]] at h
          rcases ih (total + v) ({ outputID := id, spendConditions := w.spendConditions } :: acc)
            inp h with h | h
          · rcases List.mem_cons.mp h with rfl | h
            · exact Or.inr hs
            · exact Or.inl h
          · exact Or.inr h

/-- The running total of the selection loop is the sum of the recorded
values of the inputs it has selected. -/
lemma selectGo_sum (w : Wallet) (amount : Currency) : ∀ (l : List OutputID) (total : Currency)
    (acc : List Input), total = (acc.map (fun inp => valueOf w inp.outputID)).sum →
    (selectGo w amount l total acc).1 =
      ((selectGo w amount l total acc).2.map (fun inp => valueOf w inp.outputID)).sum := by
  intro l
  induction l with
  | nil =>
    intro total acc hinv
    simp only [selectGo, List.map_reverse, List.sum_reverse]
    exact hinv
  | cons id rest ih =>
    intro total acc hinv
    by_cases hs : id ∈ w.spentOutputs
    · rw [show selectGo w amount (id :: rest) total acc = selectGo w amount rest total acc by
        simp [selectGo, hs]]
      exact ih total acc hinv
    · rcases hl : storeLookup w.outputs id with _ | v
      · rw [show selectGo w amount (id :: rest) total acc = selectGo w amount rest total acc by
          simp [selectGo, hs, hl]]
        exact ih total acc hinv
      · have hv : valueOf w id = v := by simp [valueOf, hl]
        have hinv1 : total + v =
            ((({ outputID := id, spendConditions := w.spendConditions } : Input) :: acc).map
              (fun inp => valueOf w inp.outputID)).sum := by
          simp [hinv, hv, Nat.add_comm]
        by_cases hstop : amount ≤ total + v
        · rw [show selectGo w amount (id :: rest) total acc =
              (total + v, ({ outputID := id, spendConditions := w.spendConditions } :: acc).reverse) by
            simp [selectGo, hs, hl, hstop]]
          simp only [List.map_reverse, List.sum_reverse]
          exact hinv1
        · rw [show selectGo w amount (id :: rest) total acc =
              selectGo w amount rest (total + v)
                ({ outputID := id, spendConditions := w.spendConditions } :: acc) by
            simp [selectGo, hs, hl, hstop]]
          exact ih (total + v) _ hinv1

/-- Looking up the updated key in the session table finds the new
record. -/
lemma tableLookup_tableUpdate (tbl : List (String × OpenTransaction)) (id : String)
    (ot : OpenTransaction) : tableLookup (tableUpdate tbl id ot) id = some ot := by
  induction tbl with
  | nil => simp [tableUpdate, tableLookup]
  | cons a tbl ih =>
    by_cases h : a.1 = id
    · simp [tableUpdate, tableLookup, h]
    · simpa [tableUpdate, tableLookup, h] using ih

/-- On success FundTransaction performs exactly the code's
post-selection mutation: reserve the selected ids and store the extended
session record. -/
lemma fund_success_eq (w : Wallet) (id : String) (amt : Currency) (ot : OpenTransaction)
    (hot : tableLookup w.transactions id = some ot) (h0 : amt ≠ 0)
    (hle : amt ≤ (selectInputs w amt).1) :
    fundTransaction w id amt =
      (none,
        { w with
          spentOutputs :=
            (selectInputs w amt).2.foldl (fun s inp => insertId s inp.outputID) w.spentOutputs
          transactions := tableUpdate w.transactions id
            { transaction :=
                { ot.transaction with
                  inputs := ot.transaction.inputs ++ (selectInputs w amt).2
                  outputs :=
                    if amt < (selectInputs w amt).1 then
                      ot.transaction.outputs ++
                        [{ value := (selectInputs w amt).1 - amt
                           spendHash := w.spendConditions.coinAddress }]
                    else ot.transaction.outputs }
              inputs := ot.inputs ++ (selectInputs w amt).2.map
                (fun _x => (ot.transaction.inputs ++ (selectInputs w amt).2).length) } }) := by
  have hlt : ¬(selectInputs w amt).1 < amt := Nat.not_lt.mpr hle
  by_cases hc : amt < (selectInputs w amt).1 <;>
    simp [fundTransaction, h0, hot, hlt, hc]

/-- A successful FundTransaction implies all three validations passed. -/
lemma fund_success_conditions (w : Wallet) (id : String) (amt : Currency)
    (h : (fundTransaction w id amt).1 = none) :
    amt ≠ 0 ∧ (∃ ot, tableLookup w.transactions id = some ot) ∧
      amt ≤ (selectInputs w amt).1 := by
  by_cases h0 : amt = 0
  · simp [fundTransaction, h0] at h
  · rcases hot : tableLookup w.transactions id with _ | ot
    · simp [fundTransaction, h0, hot] at h
    · by_cases hlt : (selectInputs w amt).1 < amt
      · simp [fundTransaction, h0, hot, hlt] at h
      · exact ⟨h0, ⟨ot, rfl⟩, Nat.not_lt.mp hlt⟩

/-- Claim C3: an output is reserved by at most one open session at a
time: a successful FundTransaction only selects inputs whose outputs are
not currently reserved, adds every selected output to the reserved set
(and keeps all previous reservations), and never removes an output from
the owned-output mapping — so no later FundTransaction can select the
same output until it is released. -/
theorem fund_reserves_exclusively (w : Wallet) (id : String) (amt : Currency)
    (h : (fundTransaction w id amt).1 = none) :
    (∀ inp ∈ (selectInputs w amt).2, inp.outputID ∉ w.spentOutputs) ∧
    (fundTransaction w id amt).2.ownedOutputs = w.ownedOutputs ∧
    (∀ x ∈ w.spentOutputs, x ∈ (fundTransaction w id amt).2.spentOutputs) ∧
    (∀ inp ∈ (selectInputs w amt).2, inp.outputID ∈ (fundTransaction w id amt).2.spentOutputs) := by
  obtain ⟨h0, ⟨ot, hot⟩, hle⟩ := fund_success_conditions w id amt h
  have hfresh : ∀ inp ∈ (selectInputs w amt).2, inp.outputID ∉ w.spentOutputs := by
    intro inp hinp
    rcases selectGo_mem w amt w.ownedOutputs 0 [] inp hinp with habs | hok
    · simp at habs
    · exact hok
  rw [fund_success_eq w id amt ot hot h0 hle]
  refine ⟨hfresh, rfl, ?_, ?_⟩
  · intro x hx
    exact mem_foldl_insert_of_mem (selectInputs w amt).2 w.spentOutputs x hx
  · intro inp hinp
    exact mem_foldl_insert_self (selectInputs w amt).2 w.spentOutputs inp hinp

/-- A wallet owning output 4 (value 10) with one open session. -/
def w3 : Wallet :=
  { balance := 10
    ownedOutputs := [4]
    spentOutputs := []
    outputs := [(4, 10)]
    spendConditions := { address := 7 }
    transactionCounter := 1
    transactions := [("0", sessionShell)] }

/-- Witness for fund_reserves_exclusively: funding 7 coins from w3
reserves output 4. -/
theorem fund_reserves_exclusively_witness :
    4 ∈ (fundTransaction w3 "0" 7).2.spentOutputs :=
  (fund_reserves_exclusively w3 "0" 7 (by decide)).2.2.2
    { outputID := 4, spendConditions := { address := 7 } } (by decide)

/-- A second empty transaction shell. -/
def sessionShell1 : OpenTransaction :=
  ⟨{ ident := 1, inputs := [], outputs := [], minerFees := [] }, []⟩

/-- A wallet owning outputs 4 and 5 (10 coins each) with two open
sessions. -/
def w4 : Wallet :=
  { balance := 20
    ownedOutputs := [4, 5]
    spentOutputs := []
    outputs := [(4, 10), (5, 10)]
    spendConditions := { address := 7 }
    transactionCounter := 2
    transactions := [("0", sessionShell), ("1", sessionShell1)] }

/-- Claim C4, counterexample: the refund is not paid to a freshly issued
address. Funding session "0" and then session "1" with 7 coins each
succeeds, and both refund outputs are paid to the same address 7 — the
fixed address of the wallet's spend conditions, the very address whose
conditions authorize every appended input — so no fresh address is
issued for either refund. -/
theorem refund_not_fresh_address :
    (fundTransaction w4 "0" 7).1 = none ∧
    (fundTransaction (fundTransaction w4 "0" 7).2 "1" 7).1 = none ∧
    sessionOutputs (fundTransaction w4 "0" 7).2 "0" = [{ value := 3, spendHash := 7 }] ∧
    sessionOutputs (fundTransaction (fundTransaction w4 "0" 7).2 "1" 7).2 "1" =
      [{ value := 3, spendHash := 7 }] ∧
    w4.spendConditions.coinAddress = 7 := by
  decide

/-- Claim C4 (amended): whenever FundTransaction succeeds, the sum of
the recorded values of the inputs it reserved and appended is at least
the requested amount, and if that sum strictly exceeds the amount,
exactly one refund output whose value is exactly the difference is
appended to the session's transaction, paid to the fixed address derived
from the wallet's spend conditions (the same conditions attached to
every appended input); if the sum equals the amount, no output is
appended. -/
theorem fund_sufficiency_refund (w : Wallet) (id : String) (amt : Currency)
    (ot : OpenTransaction) (hot : tableLookup w.transactions id = some ot)
    (h : (fundTransaction w id amt).1 = none) :
    amt ≤ ((selectInputs w amt).2.map (fun inp => valueOf w inp.outputID)).sum ∧
    (amt < (selectInputs w amt).1 →
      sessionOutputs (fundTransaction w id amt).2 id =
        ot.transaction.outputs ++
          [{ value := (selectInputs w amt).1 - amt
             spendHash := w.spendConditions.coinAddress }]) ∧
    ((selectInputs w amt).1 = amt →
      sessionOutputs (fundTransaction w id amt).2 id = ot.transaction.outputs) := by
  obtain ⟨h0, _, hle⟩ := fund_success_conditions w id amt h
  have hsum : (selectInputs w amt).1 =
      ((selectInputs w amt).2.map (fun inp => valueOf w inp.outputID)).sum :=
    selectGo_sum w amt w.ownedOutputs 0 [] (by simp)
  refine ⟨hsum ▸ hle, ?_, ?_⟩
  · intro hgt
    rw [fund_success_eq w id amt ot hot h0 hle]
    simp [sessionOutputs, tableLookup_tableUpdate, hgt]
  · intro heq
    rw [fund_success_eq w id amt ot hot h0 hle]
    have : ¬ amt < (selectInputs w amt).1 := by rw [heq]; exact lt_irrefl amt
    simp [sessionOutputs, tableLookup_tableUpdate, this]

/-- Witness for fund_sufficiency_refund: funding 7 coins from w4 selects
inputs worth at least 7 and appends a refund output of 3 to the fixed
address 7. -/
theorem fund_sufficiency_refund_witness :
    7 ≤ ((selectInputs w4 7).2.map (fun inp => valueOf w4 inp.outputID)).sum ∧
    sessionOutputs (fundTransaction w4 "0" 7).2 "0" =
      sessionShell.transaction.outputs ++ [{ value := 3, spendHash := 7 }] := by
  have h := fund_sufficiency_refund w4 "0" 7 sessionShell (by decide) (by decide)
  exact ⟨h.1, by simpa using h.2.1 (by decide)⟩

/-- A fold whose step fixes the state is the identity. -/
lemma foldl_fix {α : Type} (f : Wallet → α → Wallet) (w : Wallet) : ∀ l : List α,
    (∀ x ∈ l, f w x = w) → l.foldl f w = w := by
  intro l
  induction l with
  | nil => intro _h; rfl
  | cons a l ih =>
    intro h
    rw [List.foldl_cons, h a (List.mem_cons_self a l)]
    exact ih fun x hx => h x (List.mem_cons_of_mem a hx)

/-- Deleting an id that is not in the set is a no-op. -/
lemma deleteId_not_mem (l : List OutputID) (id : OutputID) (h : id ∉ l) :
    deleteId l id = l := by
  apply List.filter_eq_self.mpr
  intro x hx
  simp only [decide_eq_true_eq]
  rintro rfl
  exact h hx

/-- Deleting a batch of absent ids is a no-op. -/
lemma foldl_deleteId_fix : ∀ (ids : List OutputID) (l : List OutputID),
    (∀ id ∈ ids, id ∉ l) → ids.foldl deleteId l = l := by
  intro ids
  induction ids with
  | nil => intro l _h; rfl
  | cons a ids ih =>
    intro l h
    rw [List.foldl_cons, deleteId_not_mem l a (h a (List.mem_cons_self a ids))]
    exact ih l fun id hid => h id (List.mem_cons_of_mem a hid)

/-- Deleting the outputs of a batch of inputs, none of which is in the
set, is a no-op. -/
lemma foldl_deleteInput_fix : ∀ (inputs : List Input) (l : List OutputID),
    (∀ inp ∈ inputs, inp.outputID ∉ l) →
    inputs.foldl (fun l inp => deleteId l inp.outputID) l = l := by
  intro inputs
  induction inputs with
  | nil => intro l _h; rfl
  | cons a inputs ih =>
    intro l h
    rw [List.foldl_cons, deleteId_not_mem l a.outputID (h a (List.mem_cons_self a inputs))]
    exact ih l fun inp hinp => h inp (List.mem_cons_of_mem a hinp)

/-- The payload of an enumerated entry is in the list (enumFrom form). -/
lemma snd_mem_of_mem_enumFrom {α : Type} : ∀ (l : List α) (n : Nat) (x : Nat × α),
    x ∈ l.enumFrom n → x.2 ∈ l := by
  intro l
  induction l with
  | nil => intro n x h; simp [List.enumFrom] at h
  | cons a l ih =>
    intro n x h
    rw [List.enumFrom] at h
    rcases List.mem_cons.mp h with rfl | h
    · exact List.mem_cons_self a l
    · exact List.mem_cons_of_mem a (ih (n + 1) x h)

/-- The payload of an enumerated entry is in the list. -/
lemma snd_mem_of_mem_enum {α : Type} {x : Nat × α} {l : List α} (h : x ∈ l.enum) :
    x.2 ∈ l :=
  snd_mem_of_mem_enumFrom l 0 x h

/-- Rewinding a transaction none of whose created outputs is owned and
none of whose inputs has an owned, recorded output is a no-op. -/
lemma rewindTransaction_noop (own : CoinAddress → Bool) (w : Wallet) (t : Transaction)
    (h1 : ∀ id ∈ createdIds t, id ∉ w.ownedOutputs)
    (h2 : ∀ inp ∈ t.inputs,
      own inp.spendConditions.coinAddress = false ∨ storeLookup w.outputs inp.outputID = none) :
    rewindTransaction own w t = w := by
  unfold rewindTransaction
  rw [foldl_deleteId_fix (createdIds t) w.ownedOutputs h1]
  have heta : ({ w with ownedOutputs := w.ownedOutputs } : Wallet) = w := rfl
  rw [heta]
  apply foldl_fix
  intro inp hinp
  rcases h2 inp hinp with hfalse | hnone
  · simp [hfalse]
  · cases hown : own inp.spendConditions.coinAddress
    · simp
    · simp [hnone]

/-- Applying a transaction none of whose inputs references an owned
output and none of whose outputs is owned is a no-op. -/
lemma applyTransaction_noop (own : CoinAddress → Bool) (w : Wallet) (t : Transaction)
    (h1 : ∀ inp ∈ t.inputs, inp.outputID ∉ w.ownedOutputs)
    (h2 : ∀ out ∈ t.outputs, own out.spendHash = false) :
    applyTransaction own w t = w := by
  unfold applyTransaction
  rw [foldl_deleteInput_fix t.inputs w.ownedOutputs h1]
  have heta : ({ w with ownedOutputs := w.ownedOutputs } : Wallet) = w := rfl
  rw [heta]
  apply foldl_fix
  intro ji hji
  simp [h2 ji.2 (snd_mem_of_mem_enum hji)]

/-- Claim C8: the ledger update is total (in this embedding it is a
total function into wallet states, never an error) and tolerates
malformed deltas as no-ops: a delta that only references, for removal,
output identifiers not present in the owned set, rewound inputs with no
owned recorded output, applied inputs not in the owned set, and applied
outputs paid to unowned addresses leaves the wallet state exactly
unchanged. -/
theorem update_tolerates_missing (own : CoinAddress → Bool) (w : Wallet)
    (rewound applied : List Block)
    (hR : ∀ b ∈ rewound, ∀ t ∈ b.transactions,
      (∀ id ∈ createdIds t, id ∉ w.ownedOutputs) ∧
      (∀ inp ∈ t.inputs,
        own inp.spendConditions.coinAddress = false ∨
          storeLookup w.outputs inp.outputID = none))
    (hA : ∀ b ∈ applied, ∀ t ∈ b.transactions,
      (∀ inp ∈ t.inputs, inp.outputID ∉ w.ownedOutputs) ∧
      (∀ out ∈ t.outputs, own out.spendHash = false)) :
    update own w rewound applied = w := by
  unfold update
  rw [foldl_fix (rewindBlock own) w rewound ?_]
  · apply foldl_fix (applyBlock own) w applied
    intro b hb
    apply foldl_fix (applyTransaction own) w b.transactions
    intro t ht
    exact applyTransaction_noop own w t (hA b hb t ht).1 (hA b hb t ht).2
  · intro b hb
    apply foldl_fix (rewindTransaction own) w b.transactions.reverse
    intro t ht
    have ht1 : t ∈ b.transactions := List.mem_reverse.mp ht
    exact rewindTransaction_noop own w t (hR b hb t ht1).1 (hR b hb t ht1).2

/-- An ownership test owning exactly address 2, for the tolerance
witness. -/
def own8 : CoinAddress → Bool := fun a => a == 2

/-- A wallet owning output 5 with a recorded value of 7. -/
def w8 : Wallet :=
  { balance := 7
    ownedOutputs := [5]
    spentOutputs := []
    outputs := [(5, 7)]
    spendConditions := { address := 0 }
    transactionCounter := 0
    transactions := [] }

/-- A rewound block whose created output is not owned and whose input's
output has no record and an unowned address. -/
def r8 : List Block :=
  [⟨[{ ident := 3
       inputs := [{ outputID := 99, spendConditions := { address := 4 } }]
       outputs := [{ value := 1, spendHash := 6 }]
       minerFees := [] }]⟩]

/-- An applied block whose input references an output never recorded as
owned and whose output is paid to an unowned address. -/
def a8 : List Block :=
  [⟨[{ ident := 9
       inputs := [{ outputID := 88, spendConditions := { address := 2 } }]
       outputs := [{ value := 3, spendHash := 6 }]
       minerFees := [] }]⟩]

/-- Witness for update_tolerates_missing: a fully foreign delta leaves
w8 unchanged. -/
theorem update_tolerates_missing_witness : update own8 w8 r8 a8 = w8 :=
  update_tolerates_missing own8 w8 r8 a8 (by decide) (by decide)

end SiaWallet
